import Mathlib

/-!
Shallow embedding of the core of `matrix-bot-ical` (a Matrix chat bot serving
calendar queries from an iCal/webcal feed) together with proofs about it.

Embedded from the Rust sources:
* `src/ical.rs` — `CalendarEvent`, `IcalCalendar`, and the upcoming-event query
  (`get_upcoming_events_filtered` and its wrappers);
* `src/config.rs` — `BotFilteringConfig` and `should_ignore_user`;
* `src/main.rs` — the response formatting in `handle_meeting_event_request` /
  `handle_meetings_events_request`, and the join-with-retry loop in
  `on_stripped_state_member`.

Conventions: Rust `Option<String>` becomes `Option String`; Rust `&str`
comparison operators (byte-wise lexicographic on UTF-8, which agrees with
code-point order) become an explicit lexicographic comparison on `String.data`;
network fetches are passed in as an `Except` value; the chrono-based
`format_ical_date` (an external library call) is a function parameter of the
formatters.
-/

/-- `CalendarEvent` from `src/ical.rs`: the six optional text fields extracted
from a VEVENT. -/
structure CalendarEvent where
  summary : Option String
  description : Option String
  start_time : Option String
  end_time : Option String
  location : Option String
  url : Option String
deriving DecidableEq, Repr

/-- `IcalCalendar` from `src/ical.rs`: a parsed feed is just its event list. -/
structure IcalCalendar where
  events : List CalendarEvent
deriving DecidableEq, Repr

/-- Lexicographic comparison of character lists. This is the order Rust's
`str` comparison operators implement: byte-wise lexicographic on UTF-8,
which coincides with code-point-wise lexicographic comparison. -/
def strCmpL : List Char → List Char → Ordering
  | [], [] => Ordering.eq
  | [], _ :: _ => Ordering.lt
  | _ :: _, [] => Ordering.gt
  | a :: as, b :: bs =>
      if a < b then Ordering.lt else if b < a then Ordering.gt else strCmpL as bs

/-- Comparison of Lean strings mirroring Rust `str::cmp`. -/
def strCmp (a b : String) : Ordering := strCmpL a.data b.data

/-- Rust `a < b` on `&str`. -/
def strLt (a b : String) : Bool := strCmp a b == Ordering.lt

/-- Rust `a <= b` on `&str`. -/
def strLe (a b : String) : Bool := !(strCmp a b == Ordering.gt)

/-- The filter closure inside `get_upcoming_events_filtered`
(`src/ical.rs` lines 119–134): keep an event iff it has a `start_time`,
that start is strictly greater than `current_time`, and, when `max_date`
is supplied, the start is at most `max_date`. -/
def upcomingFilter (current_time : String) (max_date : Option String)
    (event : CalendarEvent) : Bool :=
  match event.start_time with
  | some start_time =>
      let is_future := strLt current_time start_time
      let is_before_max :=
        match max_date with
        | some m => strLe start_time m
        | none => true
      is_future && is_before_max
  | none => false

/-- The sort comparator inside `get_upcoming_events_filtered`
(`src/ical.rs` lines 137–142): compare by `start_time`, an absent start
ordering after any present one. -/
def cmpByStart (a b : CalendarEvent) : Ordering :=
  match a.start_time, b.start_time with
  | some a_time, some b_time => strCmp a_time b_time
  | some _, none => Ordering.lt
  | none, some _ => Ordering.gt
  | none, none => Ordering.eq

/-- The "less or equal" form of `cmpByStart` used to run the sort
(Rust `sort_by` orders the result so no adjacent pair compares `Greater`). -/
def leByStart (a b : CalendarEvent) : Bool := !(cmpByStart a b == Ordering.gt)

/-- `IcalCalendar::get_upcoming_events_filtered` from `src/ical.rs`
(lines 110–149): filter to future events inside the optional window, sort
ascending by start (stable merge sort, as Rust `sort_by`), then truncate
to `limit` when one is supplied. -/
def get_upcoming_events_filtered (cal : IcalCalendar) (current_time : String)
    (max_date : Option String) (limit : Option Nat) : List CalendarEvent :=
  let upcoming_events := cal.events.filter (upcomingFilter current_time max_date)
  let sorted := upcoming_events.mergeSort leByStart
  match limit with
  | some l => sorted.take l
  | none => sorted

/-- `IcalCalendar::get_upcoming_events_limited` from `src/ical.rs`. -/
def get_upcoming_events_limited (cal : IcalCalendar) (current_time : String)
    (limit : Option Nat) : List CalendarEvent :=
  get_upcoming_events_filtered cal current_time none limit

/-- `IcalCalendar::get_upcoming_events` from `src/ical.rs`. -/
def get_upcoming_events (cal : IcalCalendar) (current_time : String) :
    List CalendarEvent :=
  get_upcoming_events_limited cal current_time none

unseal List.merge List.mergeSort

/-- `BotFilteringConfig` from `src/config.rs`. -/
structure BotFilteringConfig where
  ignore_self : Bool
  ignore_bots : Bool
  ignored_users : List String
deriving DecidableEq, Repr

/-- Rust `str::to_lowercase` as used in `should_ignore_user`
(character-wise lowercasing; the identifiers involved are ASCII). -/
def to_lowercase (s : String) : String := ⟨s.data.map Char.toLower⟩

/-- `should_ignore_user` from `src/config.rs` (lines 230–247): three early
returns — self check, exact-membership check, case-insensitive `"bot"`
substring check — then `false`. Rust `str::contains` is substring
containment, embedded as decidable `List.IsInfix` on the character data. -/
def should_ignore_user (user_id : String) (bot_user_id : String)
    (config : BotFilteringConfig) : Bool :=
  if config.ignore_self && user_id == bot_user_id then true
  else if config.ignored_users.contains user_id then true
  else if config.ignore_bots && decide ("bot".data <:+: (to_lowercase user_id).data) then true
  else false

/-- `Config` from `src/config.rs` (the fields the handlers read). -/
structure Config where
  homeserver : String
  username : String
  access_token : String
  log_file : String
  working_dir : String
  webcal : String
  info_url : Option String
deriving DecidableEq, Repr

/-- The trailing "For more information" block both handlers append when
`info_url` is configured (`src/main.rs` lines 291–293 and 343–345). -/
def infoSuffix (config : Config) : String :=
  match config.info_url with
  | some info_url => "\nFor more information: " ++ info_url ++ "\n"
  | none => ""

/-- The per-event chunks both handlers push onto the response
(`src/main.rs` lines 268–288 and 319–339), as the list of strings passed to
successive `push_str` calls. Everything is guarded by
`if let Some(summary)`; the `fmt` parameter stands for the external
chrono-based `format_ical_date`. -/
def eventChunks (fmt : String → String) (event : CalendarEvent) : List String :=
  match event.summary with
  | none => []
  | some summary =>
      (match event.url with
        | some url => "**[" ++ summary ++ "](" ++ url ++ ")**\n"
        | none => "**" ++ summary ++ "**\n")
      :: ((match event.start_time with
            | some start_time => ["* Starts: " ++ fmt start_time ++ "\n"]
            | none => [])
        ++ (match event.end_time with
            | some end_time => ["* Ends: " ++ fmt end_time ++ "\n"]
            | none => [])
        ++ (match event.location with
            | some location => ["* Location: " ++ location ++ "\n"]
            | none => [])
        ++ ["\n\n"])

/-- The same per-event rendering as one string, written exactly as the
sequence of `push_str` calls in the source. -/
def renderEvent (fmt : String → String) (event : CalendarEvent) : String :=
  match event.summary with
  | none => ""
  | some summary =>
      (match event.url with
        | some url => "**[" ++ summary ++ "](" ++ url ++ ")**\n"
        | none => "**" ++ summary ++ "**\n")
      ++ (match event.start_time with
          | some start_time => "* Starts: " ++ fmt start_time ++ "\n"
          | none => "")
      ++ (match event.end_time with
          | some end_time => "* Ends: " ++ fmt end_time ++ "\n"
          | none => "")
      ++ (match event.location with
          | some location => "* Location: " ++ location ++ "\n"
          | none => "")
      ++ "\n\n"

/-- `handle_meeting_event_request` from `src/main.rs` (lines 247–296).
The network fetch (`IcalCalendar::from_url`) is passed in as `fetched`; the
second component of the result records whether control reached the fetch
(the empty-webcal early return precedes it). `current_time` stands for the
formatted `chrono::Utc::now()` and `fmt` for `format_ical_date`. -/
def handle_meeting_event_request_t (config : Config)
    (fetched : Except String IcalCalendar) (current_time : String)
    (fmt : String → String) : String × Bool :=
  if config.webcal = "" then ("No webcal URL configured", false)
  else
    match fetched with
    | Except.error _ => ("There was a problem fetching the calendar", true)
    | Except.ok calendar =>
        let upcoming_events := get_upcoming_events_limited calendar current_time (some 1)
        match upcoming_events with
        | [] => ("No upcoming events found.", true)
        | event :: _ =>
            ("# Next Meeting/Event\n\n" ++ renderEvent fmt event ++ infoSuffix config,
              true)

/-- The response text of `handle_meeting_event_request`. -/
def handle_meeting_event_request (config : Config)
    (fetched : Except String IcalCalendar) (current_time : String)
    (fmt : String → String) : String :=
  (handle_meeting_event_request_t config fetched current_time fmt).1

/-- `handle_meetings_events_request` from `src/main.rs` (lines 298–348),
modelled like `handle_meeting_event_request_t`; the loop over
`upcoming_events` concatenates the per-event renderings. -/
def handle_meetings_events_request_t (config : Config)
    (fetched : Except String IcalCalendar) (current_time : String)
    (fmt : String → String) : String × Bool :=
  if config.webcal = "" then ("No webcal URL configured", false)
  else
    match fetched with
    | Except.error _ => ("There was a problem fetching the calendar", true)
    | Except.ok calendar =>
        let upcoming_events := get_upcoming_events calendar current_time
        if upcoming_events = [] then ("No upcoming events found.", true)
        else
          ("# Upcoming Meetings/Events\n\n"
              ++ String.join (upcoming_events.map (renderEvent fmt))
              ++ infoSuffix config,
            true)

/-- The response text of `handle_meetings_events_request`. -/
def handle_meetings_events_request (config : Config)
    (fetched : Except String IcalCalendar) (current_time : String)
    (fmt : String → String) : String :=
  (handle_meetings_events_request_t config fetched current_time fmt).1

/-- Outcome of one `room.join().await` call. -/
inductive JoinOutcome where
  | ok
  | err
deriving DecidableEq, Repr

/-- Control points of the join-with-retry task spawned in
`on_stripped_state_member` (`src/main.rs` lines 210–230):
`looping delay` is the top of the `while let Err` loop with the current
`delay`; `finalTry brokeOut` is the `room.join()` after the loop (line 227),
with `brokeOut` recording whether the loop was left through the
delay-cap `break`; `joined`, `gaveUp` and `ended` are the three ways the
task finishes (`gaveUp` is the give-up end state reached when the capped
retries and the final attempt all failed). -/
inductive MMState where
  | looping (delay : Nat)
  | finalTry (brokeOut : Bool)
  | joined
  | gaveUp
  | ended
deriving DecidableEq, Repr

/-- One `room.join()` call and the code that follows it, as a step of the
state machine. In `looping delay` with a failed join the task sleeps
`delay` seconds, doubles `delay`, and breaks out once the doubled value
exceeds 3600; a successful loop join also falls through to the final
`room.join()` on line 227. Terminal states do not call `join`. -/
def mmStep : MMState → JoinOutcome → MMState
  | MMState.looping delay, JoinOutcome.err =>
      let next := delay * 2
      if next > 3600 then MMState.finalTry true else MMState.looping next
  | MMState.looping _, JoinOutcome.ok => MMState.finalTry false
  | MMState.finalTry true, JoinOutcome.err => MMState.gaveUp
  | MMState.finalTry false, JoinOutcome.err => MMState.ended
  | MMState.finalTry _, JoinOutcome.ok => MMState.joined
  | s, _ => s

/-- Run the machine over a stream of would-be join outcomes; terminal
states ignore the rest of the stream. -/
def mmRun (s : MMState) : List JoinOutcome → MMState
  | [] => s
  | o :: os => mmRun (mmStep s o) os

/-- Observable trace of a run: the delays actually slept, the successive
values assigned to the `delay` variable by `delay *= 2`, the number of
`room.join()` calls made, and the state reached. -/
structure MMTrace where
  delaysSlept : List Nat
  delayValues : List Nat
  attempts : Nat
  final : MMState
deriving DecidableEq, Repr

/-- Trace semantics of the join-with-retry task. Only non-terminal states
make a `join` call; a failed loop iteration sleeps the current delay and
assigns its doubling. -/
def mmRunTrace : MMState → List JoinOutcome → MMTrace
  | s, [] => ⟨[], [], 0, s⟩
  | s, o :: os =>
      let t := mmRunTrace (mmStep s o) os
      match s, o with
      | MMState.looping d, JoinOutcome.err =>
          ⟨d :: t.delaysSlept, d * 2 :: t.delayValues, t.attempts + 1, t.final⟩
      | MMState.looping _, JoinOutcome.ok =>
          ⟨t.delaysSlept, t.delayValues, t.attempts + 1, t.final⟩
      | MMState.finalTry _, _ =>
          ⟨t.delaysSlept, t.delayValues, t.attempts + 1, t.final⟩
      | _, _ => t

/-- The concrete scenario of the specification: three events, reference
time between the first and second, maximum time between the second and
third — only the middle event is returned. -/
theorem upcoming_scenario :
    get_upcoming_events_filtered
      ⟨[⟨some "A", none, some "20251201T100000Z", none, none, none⟩,
        ⟨some "B", none, some "20251205T100000Z", none, none, none⟩,
        ⟨some "C", none, some "20251210T100000Z", none, none, none⟩]⟩
      "20251203T000000Z" (some "20251206T000000Z") none =
      [⟨some "B", none, some "20251205T100000Z", none, none, none⟩] := by
  decide

theorem strCmpL_eq_iff : ∀ (as bs : List Char), strCmpL as bs = Ordering.eq ↔ as = bs
  | [], [] => by simp [strCmpL]
  | [], _ :: _ => by simp [strCmpL]
  | _ :: _, [] => by simp [strCmpL]
  | a :: as, b :: bs => by
      simp only [strCmpL]
      rcases lt_trichotomy a b with h | h | h
      · rw [if_pos h]; simp [h.ne]
      · subst h
        rw [if_neg (lt_irrefl a), if_neg (lt_irrefl a)]
        simp [strCmpL_eq_iff as bs]
      · rw [if_neg (asymm h), if_pos h]; simp [h.ne']

theorem strCmpL_gt_iff : ∀ (as bs : List Char),
    strCmpL as bs = Ordering.gt ↔ strCmpL bs as = Ordering.lt
  | [], [] => by simp [strCmpL]
  | [], _ :: _ => by simp [strCmpL]
  | _ :: _, [] => by simp [strCmpL]
  | a :: as, b :: bs => by
      simp only [strCmpL]
      rcases lt_trichotomy a b with h | h | h
      · rw [if_pos h, if_neg (asymm h), if_pos h]; simp
      · subst h
        rw [if_neg (lt_irrefl a), if_neg (lt_irrefl a), if_neg (lt_irrefl a),
          if_neg (lt_irrefl a)]
        exact strCmpL_gt_iff as bs
      · rw [if_neg (asymm h), if_pos h, if_pos h]; simp

theorem strCmpL_lt_trans : ∀ (as bs cs : List Char), strCmpL as bs = Ordering.lt →
    strCmpL bs cs = Ordering.lt → strCmpL as cs = Ordering.lt
  | [], [], _, h1, _ => by simp [strCmpL] at h1
  | [], _ :: _, [], _, h2 => by simp [strCmpL] at h2
  | [], _ :: _, _ :: _, _, _ => by simp [strCmpL]
  | _ :: _, [], _, h1, _ => by simp [strCmpL] at h1
  | _ :: _, _ :: _, [], _, h2 => by simp [strCmpL] at h2
  | a :: as, b :: bs, c :: cs, h1, h2 => by
      simp only [strCmpL] at h1 h2 ⊢
      rcases lt_trichotomy a b with hab | hab | hab
      · rcases lt_trichotomy b c with hbc | hbc | hbc
        · rw [if_pos (lt_trans hab hbc)]
        · subst hbc; rw [if_pos hab]
        · rw [if_neg (asymm hbc), if_pos hbc] at h2; exact absurd h2 (by simp)
      · subst hab
        rw [if_neg (lt_irrefl a), if_neg (lt_irrefl a)] at h1
        rcases lt_trichotomy a c with hac | hac | hac
        · rw [if_pos hac]
        · subst hac
          rw [if_neg (lt_irrefl a), if_neg (lt_irrefl a)] at h2 ⊢
          exact strCmpL_lt_trans as bs cs h1 h2
        · rw [if_neg (asymm hac), if_pos hac] at h2; exact absurd h2 (by simp)
      · rw [if_neg (asymm hab), if_pos hab] at h1; exact absurd h1 (by simp)

theorem leByStart_eq_true_iff (a b : CalendarEvent) :
    leByStart a b = true ↔ cmpByStart a b ≠ Ordering.gt := by
  cases h : cmpByStart a b <;> simp [leByStart, h] <;> decide

theorem leByStart_total (a b : CalendarEvent) :
    leByStart a b = true ∨ leByStart b a = true := by
  rw [leByStart_eq_true_iff, leByStart_eq_true_iff]
  rcases ha : a.start_time with _ | x <;> rcases hb : b.start_time with _ | y <;>
    simp [cmpByStart, ha, hb]
  by_cases h : strCmp x y = Ordering.gt
  · right
    rw [strCmp] at h ⊢
    rw [strCmpL_gt_iff] at h
    simp [h]
  · left; exact h

theorem strCmpL_ne_gt_trans {as bs cs : List Char} (h1 : strCmpL as bs ≠ Ordering.gt)
    (h2 : strCmpL bs cs ≠ Ordering.gt) : strCmpL as cs ≠ Ordering.gt := by
  intro hc
  rcases e1 : strCmpL as bs with _ | _ | _
  · rcases e2 : strCmpL bs cs with _ | _ | _
    · have h3 := strCmpL_lt_trans as bs cs e1 e2
      rw [hc] at h3
      exact absurd h3 (by simp)
    · have hbc := (strCmpL_eq_iff bs cs).mp e2
      subst hbc
      rw [e1] at hc
      exact absurd hc (by simp)
    · exact h2 e2
  · have hab := (strCmpL_eq_iff as bs).mp e1
    subst hab
    exact h2 hc
  · exact h1 e1

theorem leByStart_trans (a b c : CalendarEvent) (h1 : leByStart a b = true)
    (h2 : leByStart b c = true) : leByStart a c = true := by
  rw [leByStart_eq_true_iff] at h1 h2 ⊢
  rcases ha : a.start_time with _ | x <;> rcases hb : b.start_time with _ | y <;>
    rcases hz : c.start_time with _ | z <;>
      simp [cmpByStart, strCmp, ha, hb, hz] at h1 h2 ⊢
  exact strCmpL_ne_gt_trans h1 h2

theorem get_upcoming_none_eq (cal : IcalCalendar) (current_time : String)
    (max_date : Option String) :
    get_upcoming_events_filtered cal current_time max_date none =
      (cal.events.filter (upcomingFilter current_time max_date)).mergeSort leByStart := rfl

theorem get_upcoming_some_eq (cal : IcalCalendar) (current_time : String)
    (max_date : Option String) (k : Nat) :
    get_upcoming_events_filtered cal current_time max_date (some k) =
      ((cal.events.filter (upcomingFilter current_time max_date)).mergeSort leByStart).take k :=
  rfl

theorem upcomingFilter_eq_true_iff (current_time : String) (max_date : Option String)
    (e : CalendarEvent) :
    upcomingFilter current_time max_date e = true ↔
      ∃ st, e.start_time = some st ∧ strLt current_time st = true ∧
        ∀ m, max_date = some m → strLe st m = true := by
  rcases h : e.start_time with _ | st <;> rcases max_date with _ | m <;>
    simp [upcomingFilter, h]

/-- The event and one-event calendar used to exhibit the effect of a
zero limit. -/
def cexEventC1 : CalendarEvent :=
  ⟨some "Event", none, some "20251205T100000Z", none, none, none⟩

/-- One-event calendar for the limit counterexample. -/
def cexCalC1 : IcalCalendar := ⟨[cexEventC1]⟩

/-- C1 (counterexample): quantified over every optional limit the claimed
equivalence fails — at `limit = some 0` the event of `cexCalC1` has a start
strictly greater than the reference time (no maximum time is supplied) yet
is not in the query result, because truncation drops it. -/
theorem upcoming_mem_iff_cex :
    cexEventC1 ∈ cexCalC1.events ∧
    cexEventC1.start_time = some "20251205T100000Z" ∧
    strLt "20251201T000000Z" "20251205T100000Z" = true ∧
    cexEventC1 ∉ get_upcoming_events_filtered cexCalC1 "20251201T000000Z" none (some 0) := by
  decide

/-- C1 (amended): an event is in the result of the upcoming query without a
limit iff it is an event of the calendar, has a `start` value, that start is
lexicographically strictly greater than the reference time and, when a
maximum time is supplied, lexicographically at most that maximum
(inclusive); when a limit is supplied, membership still implies all of
these conditions (the converse can fail only by truncation). -/
theorem upcoming_mem_iff (cal : IcalCalendar) (current_time : String)
    (max_date : Option String) (e : CalendarEvent) :
    (e ∈ get_upcoming_events_filtered cal current_time max_date none ↔
      e ∈ cal.events ∧ ∃ st, e.start_time = some st ∧
        strLt current_time st = true ∧
        ∀ m, max_date = some m → strLe st m = true) ∧
    (∀ k, e ∈ get_upcoming_events_filtered cal current_time max_date (some k) →
      e ∈ cal.events ∧ ∃ st, e.start_time = some st ∧
        strLt current_time st = true ∧
        ∀ m, max_date = some m → strLe st m = true) := by
  constructor
  · rw [get_upcoming_none_eq, List.mem_mergeSort, List.mem_filter,
      upcomingFilter_eq_true_iff]
  · intro k hk
    rw [get_upcoming_some_eq] at hk
    have hm := List.take_subset k _ hk
    rw [List.mem_mergeSort, List.mem_filter, upcomingFilter_eq_true_iff] at hm
    exact hm

/-- Witness for the amended C1 at a concrete calendar: the qualifying event
is indeed a member of the unlimited result. -/
theorem upcoming_mem_iff_witness :
    cexEventC1 ∈ get_upcoming_events_filtered cexCalC1 "20251201T000000Z" none none :=
  ((upcoming_mem_iff cexCalC1 "20251201T000000Z" none cexEventC1).1).mpr
    ⟨by decide, "20251205T100000Z", by decide, by decide, by simp⟩

/-- Order of events as the spec states C2: whenever both events carry a
start value, the first start is lexicographically at most the second. -/
def startLeRel (a b : CalendarEvent) : Prop :=
  ∀ sa sb, a.start_time = some sa → b.start_time = some sb → strLe sa sb = true

theorem leByStart_implies_startLe {a b : CalendarEvent}
    (h : leByStart a b = true) : startLeRel a b := by
  intro sa sb ha hb
  rw [leByStart_eq_true_iff] at h
  simp [cmpByStart, ha, hb, strCmp] at h
  rcases e : strCmpL sa.data sb.data with _ | _ | _ <;>
    first
      | exact absurd e h
      | (simp [strLe, strCmp, e]; decide)

/-- C2: for any input calendar and any query parameters the query result is
pairwise non-decreasing by start under lexicographic string comparison; the
comparator the sort uses is total; and an event with no start compares
after any event that has one. -/
theorem upcoming_result_sorted (cal : IcalCalendar) (current_time : String)
    (max_date : Option String) (limit : Option Nat) :
    (get_upcoming_events_filtered cal current_time max_date limit).Pairwise
      (fun a b => leByStart a b = true ∧ startLeRel a b) ∧
    (∀ a b : CalendarEvent, leByStart a b = true ∨ leByStart b a = true) ∧
    (∀ a b : CalendarEvent, a.start_time = none → b.start_time ≠ none →
      cmpByStart a b = Ordering.gt ∧ leByStart b a = true) := by
  have hs : ((cal.events.filter (upcomingFilter current_time max_date)).mergeSort
      leByStart).Pairwise (fun a b => leByStart a b = true) :=
    @List.sorted_mergeSort _ leByStart (fun a b c => leByStart_trans a b c)
      (fun a b => by rcases leByStart_total a b with h | h <;> simp [h]) _
  have himp : ∀ {a b : CalendarEvent}, leByStart a b = true →
      leByStart a b = true ∧ startLeRel a b :=
    fun h => ⟨h, leByStart_implies_startLe h⟩
  refine ⟨?_, fun a b => leByStart_total a b, ?_⟩
  · cases limit with
    | none => exact hs.imp himp
    | some k =>
        exact List.Pairwise.sublist (List.take_sublist k _) (hs.imp himp)
  · intro a b ha hb
    rcases hbs : b.start_time with _ | sb
    · exact absurd hbs hb
    · constructor
      · simp [cmpByStart, ha, hbs]
      · rw [leByStart_eq_true_iff]
        simp [cmpByStart, ha, hbs]

/-- Witness for C2 at a concrete calendar. -/
theorem upcoming_result_sorted_witness :
    (get_upcoming_events_filtered cexCalC1 "20251201T000000Z" none none).Pairwise
      (fun a b => leByStart a b = true ∧ startLeRel a b) :=
  (upcoming_result_sorted cexCalC1 "20251201T000000Z" none none).1

/-- C3: the query with `limit = k` is exactly the first `k` entries of the
unlimited query — it equals the `take k` of the unlimited result, its
length is `min k n` where `n` is the unlimited result's size, and it is a
prefix of the unlimited result. -/
theorem upcoming_limit_truncates (cal : IcalCalendar) (current_time : String)
    (max_date : Option String) (k : Nat) :
    get_upcoming_events_filtered cal current_time max_date (some k) =
      (get_upcoming_events_filtered cal current_time max_date none).take k ∧
    (get_upcoming_events_filtered cal current_time max_date (some k)).length =
      min k (get_upcoming_events_filtered cal current_time max_date none).length ∧
    get_upcoming_events_filtered cal current_time max_date (some k) <+:
      get_upcoming_events_filtered cal current_time max_date none := by
  refine ⟨rfl, ?_, ?_⟩
  · rw [get_upcoming_some_eq, get_upcoming_none_eq, List.length_take]
  · rw [get_upcoming_some_eq, get_upcoming_none_eq]
    exact ⟨_, List.take_append_drop k _⟩

/-- C4: when every join fails, the run from the initial delay of 2 makes
eleven in-loop attempts sleeping `2,4,...,2048`, the successive values of
the delay variable are exactly `2,4,8,...,2048,4096`, the computed next
delay `4096` of the eleventh (last retried) attempt is the first to exceed
the 3600 cap — after eleven failures the machine sits at the single
final non-retried attempt — and after that final attempt also fails the
machine is in the give-up state, twelve `join` calls in all. -/
theorem backoff_all_fail_trace :
    (2 : Nat) ::
      (mmRunTrace (MMState.looping 2) (List.replicate 12 JoinOutcome.err)).delayValues =
      [2, 4, 8, 16, 32, 64, 128, 256, 512, 1024, 2048, 4096] ∧
    (mmRunTrace (MMState.looping 2) (List.replicate 12 JoinOutcome.err)).delaysSlept =
      [2, 4, 8, 16, 32, 64, 128, 256, 512, 1024, 2048] ∧
    (mmRunTrace (MMState.looping 2) (List.replicate 12 JoinOutcome.err)).attempts = 12 ∧
    (mmRunTrace (MMState.looping 2) (List.replicate 12 JoinOutcome.err)).final =
      MMState.gaveUp ∧
    (mmRunTrace (MMState.looping 2) (List.replicate 11 JoinOutcome.err)).final =
      MMState.finalTry true ∧
    2048 * 2 > 3600 ∧ ¬ 1024 * 2 > 3600 := by
  decide

theorem gaveUp_run_eq : ∀ (os : List JoinOutcome),
    mmRun MMState.gaveUp os = MMState.gaveUp
  | [] => rfl
  | o :: os => by cases o <;> exact gaveUp_run_eq os

theorem gaveUp_trace_eq : ∀ (os : List JoinOutcome),
    mmRunTrace MMState.gaveUp os = ⟨[], [], 0, MMState.gaveUp⟩
  | [] => rfl
  | o :: os => by cases o <;> simp [mmRunTrace, mmStep, gaveUp_trace_eq os]

/-- C5: the give-up state is terminal — however a run reached it, every
continuation of the run makes no further join attempt, sleeps no further
delay, and stays in the give-up state. -/
theorem gaveUp_terminal (s : MMState) (os os' : List JoinOutcome)
    (h : mmRun s os = MMState.gaveUp) :
    (mmRunTrace (mmRun s os) os').attempts = 0 ∧
    (mmRunTrace (mmRun s os) os').delaysSlept = [] ∧
    mmRun (mmRun s os) os' = MMState.gaveUp := by
  rw [h, gaveUp_trace_eq, gaveUp_run_eq]
  exact ⟨rfl, rfl, rfl⟩

/-- Witness for C5: after the twelve-failure run that gives up, two further
would-be outcomes trigger no join attempt. -/
theorem gaveUp_terminal_witness :
    (mmRunTrace (mmRun (MMState.looping 2) (List.replicate 12 JoinOutcome.err))
        [JoinOutcome.ok, JoinOutcome.err]).attempts = 0 ∧
    (mmRunTrace (mmRun (MMState.looping 2) (List.replicate 12 JoinOutcome.err))
        [JoinOutcome.ok, JoinOutcome.err]).delaysSlept = [] ∧
    mmRun (mmRun (MMState.looping 2) (List.replicate 12 JoinOutcome.err))
        [JoinOutcome.ok, JoinOutcome.err] = MMState.gaveUp :=
  gaveUp_terminal (MMState.looping 2) (List.replicate 12 JoinOutcome.err)
    [JoinOutcome.ok, JoinOutcome.err] (by decide)

/-- Event with start, end and location present but no summary. -/
def cexEventC6 : CalendarEvent :=
  ⟨none, none, some "20251205T100000Z", some "20251205T110000Z", some "Room 1", none⟩

/-- C6 (counterexample): the Starts/Ends/Location lines are not emitted
independently of the other fields — with no summary the whole block is
skipped, so an event with a start value renders with no "Starts" line at
all (the rendering is empty). -/
theorem render_lines_iff_cex :
    cexEventC6.start_time.isSome = true ∧
    cexEventC6.end_time.isSome = true ∧
    cexEventC6.location.isSome = true ∧
    renderEvent (fun s => s) cexEventC6 = "" ∧
    eventChunks (fun s => s) cexEventC6 = [] ∧
    ¬ ("* Starts: ".data <+: (renderEvent (fun s => s) cexEventC6).data) := by
  decide

/-- C6 (amended): the per-event rendered text is the concatenation of the
pushed chunks, and a "Starts" (resp. "Ends", "Location") line is among
those chunks iff the summary field is present and the corresponding field
is present — the whole per-event block is guarded by the summary, and
within it each line depends only on its own field. -/
theorem render_lines_iff (fmt : String → String) (e : CalendarEvent) :
    renderEvent fmt e = String.join (eventChunks fmt e) ∧
    ((∃ c ∈ eventChunks fmt e, "* Starts: ".data <+: c.data) ↔
      (e.summary.isSome = true ∧ e.start_time.isSome = true)) ∧
    ((∃ c ∈ eventChunks fmt e, "* Ends: ".data <+: c.data) ↔
      (e.summary.isSome = true ∧ e.end_time.isSome = true)) ∧
    ((∃ c ∈ eventChunks fmt e, "* Location: ".data <+: c.data) ↔
      (e.summary.isSome = true ∧ e.location.isSome = true)) := by
  rcases e with ⟨s, d, st, et, loc, u⟩
  cases s <;> cases st <;> cases et <;> cases loc <;> cases u <;>
    refine ⟨?_, ?_, ?_, ?_⟩ <;>
      first
        | (apply String.ext
           simp [renderEvent, eventChunks, String.join, String.data_append])
        | simp [eventChunks, String.data_append, List.cons_prefix_cons]

/-- Witness for the amended C6: an event with summary and start present
does get a "Starts" chunk. -/
theorem render_lines_iff_witness :
    ∃ c ∈ eventChunks (fun s => s) cexEventC1, "* Starts: ".data <+: c.data :=
  ((render_lines_iff (fun s => s) cexEventC1).2.1).mpr ⟨rfl, rfl⟩

theorem should_ignore_user_eq_or (user_id bot_user_id : String)
    (config : BotFilteringConfig) :
    should_ignore_user user_id bot_user_id config =
      ((config.ignore_self && user_id == bot_user_id) ||
        config.ignored_users.contains user_id ||
        (config.ignore_bots && decide ("bot".data <:+: (to_lowercase user_id).data))) := by
  cases h1 : (config.ignore_self && user_id == bot_user_id) <;>
    cases h2 : config.ignored_users.contains user_id <;>
      cases h3 : (config.ignore_bots &&
          decide ("bot".data <:+: (to_lowercase user_id).data)) <;>
        simp only [should_ignore_user, h1, h2, h3] <;> rfl

/-- C7: `should_ignore_user` holds iff at least one of its three
independent conditions holds — it is a plain boolean disjunction (so
evaluation order cannot change the result): the self check, exact
membership in the ignored list, or the case-insensitive `"bot"` substring
check. -/
theorem should_ignore_user_iff (user_id bot_user_id : String)
    (config : BotFilteringConfig) :
    (should_ignore_user user_id bot_user_id config =
      ((config.ignore_self && user_id == bot_user_id) ||
        config.ignored_users.contains user_id ||
        (config.ignore_bots && decide ("bot".data <:+: (to_lowercase user_id).data)))) ∧
    (should_ignore_user user_id bot_user_id config = true ↔
      ((config.ignore_self = true ∧ user_id = bot_user_id) ∨
        user_id ∈ config.ignored_users ∨
        (config.ignore_bots = true ∧ "bot".data <:+: (to_lowercase user_id).data))) := by
  refine ⟨should_ignore_user_eq_or user_id bot_user_id config, ?_⟩
  rw [should_ignore_user_eq_or]
  simp [List.contains, List.elem_iff, Bool.or_eq_true, Bool.and_eq_true, or_assoc]

/-- Witness for C7 on the spec's example: a sender with "Bot" in the name
is ignored by the bot-like rule alone. -/
theorem should_ignore_user_iff_witness :
    should_ignore_user "@Spam-Bot:x" "@me:x" ⟨false, true, []⟩ = true :=
  ((should_ignore_user_iff "@Spam-Bot:x" "@me:x" ⟨false, true, []⟩).2).mpr
    (Or.inr (Or.inr ⟨rfl, by decide⟩))

/-- A configuration with a webcal URL set, for witnesses. -/
def sampleConfig : Config :=
  ⟨"https://matrix.example.com", "@bot:example.com", "token", "bot.log", ".",
    "https://example.com/cal.ics", none⟩

/-- C8: when the webcal URL is configured and the feed fetch or feed
parse fails, both query handlers answer the fixed apology text; the
handlers are total functions into `String`, so the failure stops at the
query-handling boundary. -/
theorem fetch_failure_apology (config : Config) (e : String)
    (current_time : String) (fmt : String → String) (h : config.webcal ≠ "") :
    handle_meeting_event_request config (Except.error e) current_time fmt =
      "There was a problem fetching the calendar" ∧
    handle_meetings_events_request config (Except.error e) current_time fmt =
      "There was a problem fetching the calendar" := by
  constructor <;>
    simp [handle_meeting_event_request, handle_meeting_event_request_t,
      handle_meetings_events_request, handle_meetings_events_request_t, h]

/-- Witness for C8 at a concrete configuration and fetch error. -/
theorem fetch_failure_apology_witness :
    handle_meeting_event_request sampleConfig (Except.error "HTTP error")
        "20251201T000000Z" (fun s => s) = "There was a problem fetching the calendar" :=
  (fetch_failure_apology sampleConfig "HTTP error" "20251201T000000Z" (fun s => s)
      (by decide)).1

/-- C9: when the webcal URL is configured, the fetch succeeded and the
upcoming query result is empty (for instance on an empty feed), both
handlers answer the fixed "No upcoming events found." text — a non-empty
string, produced totally. -/
theorem empty_result_message (config : Config) (cal : IcalCalendar)
    (current_time : String) (fmt : String → String) (h : config.webcal ≠ "")
    (he : get_upcoming_events cal current_time = []) :
    handle_meeting_event_request config (Except.ok cal) current_time fmt =
      "No upcoming events found." ∧
    handle_meetings_events_request config (Except.ok cal) current_time fmt =
      "No upcoming events found." ∧
    ("No upcoming events found." : String) ≠ "" := by
  have h1 : get_upcoming_events_limited cal current_time (some 1) = [] := by
    show ((cal.events.filter (upcomingFilter current_time none)).mergeSort
      leByStart).take 1 = []
    have h0 : (cal.events.filter (upcomingFilter current_time none)).mergeSort
        leByStart = [] := he
    rw [h0]
    rfl
  refine ⟨?_, ?_, by decide⟩
  · simp [handle_meeting_event_request, handle_meeting_event_request_t, h, h1]
  · simp [handle_meetings_events_request, handle_meetings_events_request_t, h, he]

/-- Witness for C9: the empty feed yields the fixed empty-state message. -/
theorem empty_result_message_witness :
    handle_meeting_event_request sampleConfig (Except.ok ⟨[]⟩) "20251201T000000Z"
        (fun s => s) = "No upcoming events found." :=
  (empty_result_message sampleConfig ⟨[]⟩ "20251201T000000Z" (fun s => s)
      (by decide) (by decide)).1

/-- C10: with an empty webcal URL both handlers answer the fixed
"No webcal URL configured" text, and control never reaches the feed
fetch (the traced flag stays false), whatever the would-be fetch
outcome. -/
theorem no_webcal_short_circuit (config : Config)
    (fetched : Except String IcalCalendar) (current_time : String)
    (fmt : String → String) (h : config.webcal = "") :
    handle_meeting_event_request_t config fetched current_time fmt =
      ("No webcal URL configured", false) ∧
    handle_meetings_events_request_t config fetched current_time fmt =
      ("No webcal URL configured", false) := by
  constructor <;>
    simp [handle_meeting_event_request_t, handle_meetings_events_request_t, h]

/-- A configuration with no webcal URL, for the C10 witness. -/
def emptyWebcalConfig : Config :=
  ⟨"https://matrix.example.com", "@bot:example.com", "token", "bot.log", ".", "", none⟩

/-- Witness for C10: with no webcal URL the handler short-circuits even
when the would-be fetch outcome is an error. -/
theorem no_webcal_short_circuit_witness :
    handle_meeting_event_request_t emptyWebcalConfig (Except.error "never fetched")
        "20251201T000000Z" (fun s => s) = ("No webcal URL configured", false) :=
  (no_webcal_short_circuit emptyWebcalConfig (Except.error "never fetched")
      "20251201T000000Z" (fun s => s) rfl).1
